import Mathlib

/-!
# keygen.go: the test key-map generator of the keystore

A shallow embedding of `pkg/keystore/keystoretest/keygen.go`.

* Go strings are modelled as `List Char` (`Str`).  Every string the program
  builds itself is ASCII; `/`, the back quote and the template delimiters are
  ASCII too, so splitting and scanning by character agrees with Go's
  byte-wise behaviour.
* The OpenPGP library, the file system and the random source are outside the
  program.  They enter as parameters: a record of state-passing operations
  (`OpenPGP`) and a description of how the file system answers (`FS`).
* The fragments of the Go standard library the program calls
  (`strings.Split`, `fmt.Sprintf`, `text/template`) are modelled after their
  Go implementation, restricted to the forms the program uses.
-/

namespace Keygen

/-! ## Strings and bytes -/

/-- A Go string. -/
abbrev Str := List Char

/-- A Go byte. -/
abbrev Byte := Fin 256

/-! ## strings.Split, for a one-byte separator -/

/-- Go `strings.IndexByte`: position of the first `c` in `s`; `none` is Go's `-1`. -/
def IndexByte : Str → Char → Option Nat
  | [], _ => none
  | x :: xs, c => if x = c then some 0 else (IndexByte xs c).map (· + 1)

/-- Go `strings.Count` for a one-byte separator: the number of occurrences. -/
def Count : Str → Char → Nat
  | [], _ => 0
  | x :: xs, c => if x = c then Count xs c + 1 else Count xs c

/-- The loop of Go `genSplit`, `for i < n`: at most `n` cuts, each at the next
separator; the rest of the string is the last element. -/
def genSplitLoop (sep : Char) : Nat → Str → List Str
  | 0, s => [s]
  | n + 1, s =>
    match IndexByte s sep with
    | none => [s]
    | some m => s.take m :: genSplitLoop sep n (s.drop (m + 1))

/-- Go `strings.Split(s, sep)` with `len(sep) == 1`, that is
`genSplit(s, sep, 0, -1)`: `n = Count(s, sep) + 1`, capped at `len(s) + 1`,
then `n - 1` rounds of the loop. -/
def Split (s : Str) (sep : Char) : List Str :=
  let n := Count s sep + 1
  let n := if n > s.length + 1 then s.length + 1 else n
  genSplitLoop sep (n - 1) s

/-! ## fmt.Sprintf, verbs `%s` and `%x` -/

/-- An operand of `Sprintf`. -/
inductive Arg
  | str (s : Str)
  | bytes (b : List Byte)

/-- Go `fmt`: `const ldigits = "0123456789abcdefx"`. -/
def ldigits : Str := "0123456789abcdefx".toList

/-- Go `fmt.fmtSbx` without flags: `digits[c>>4]`, `digits[c&0xF]` for every byte. -/
def fmtSbx : List Byte → Str
  | [] => []
  | c :: cs =>
    ldigits.get ⟨c.val >>> 4, by
      have h := c.isLt
      rw [Nat.shiftRight_eq_div_pow]
      show c.val / 16 < 17
      omega⟩ ::
    ldigits.get ⟨c.val &&& 0xF, by
      have h : c.val &&& 0xF ≤ 0xF := Nat.and_le_right
      show c.val &&& 0xF < 17
      omega⟩ ::
    fmtSbx cs

/-- One verb applied to one operand: `%s` of a string is the string, `%x` of a
byte array is its hexadecimal form.  Other pairs are outside the fragment. -/
def fmtVerb : Char → Arg → Option Str
  | v, Arg.str s => if v = 's' then some s else none
  | v, Arg.bytes b => if v = 'x' then some (fmtSbx b) else none

/-- Go `fmt.Sprintf` for formats made of plain text and the verbs `%s` and `%x`,
each with its operand present.  `none` marks a call outside this fragment
(where Go would print a `%!` diagnostic). -/
def Sprintf : Str → List Arg → Option Str
  | [], [] => some []
  | [], _ :: _ => none
  | c :: rest, args =>
    if c = '%' then
      match rest, args with
      | v :: rest1, a :: args1 =>
        match fmtVerb v a with
        | none => none
        | some t => (Sprintf rest1 args1).map (t ++ ·)
      | _, _ => none
    else (Sprintf rest args).map (c :: ·)

/-! ## encoding/hex, the reader of a hexadecimal fingerprint -/

/-- Go `encoding/hex.fromHexChar`. -/
def fromHexChar (c : Char) : Option Nat :=
  if '0' ≤ c ∧ c ≤ '9' then some (c.toNat - '0'.toNat)
  else if 'a' ≤ c ∧ c ≤ 'f' then some (c.toNat - 'a'.toNat + 10)
  else if 'A' ≤ c ∧ c ≤ 'F' then some (c.toNat - 'A'.toNat + 10)
  else none

/-- Go `encoding/hex.DecodeString`: two digits per byte, `(a << 4) | b`;
`none` on a character that is no hex digit or on odd length. -/
def hexDecode : Str → Option (List Byte)
  | [] => some []
  | [_] => none
  | p :: q :: rest =>
    match fromHexChar p, fromHexChar q, hexDecode rest with
    | some a, some b, some bs => some (Fin.ofNat ((a <<< 4) ||| b) :: bs)
    | _, _, _ => none

/-! ## text/template, the fragment used by the key-map template -/

/-- A lexed piece of a template: literal text, or the inside of `{{ }}`. -/
inductive Item
  | text (s : Str)
  | action (s : Str)

/-- The pending literal text, as an item; empty text gives no item. -/
def flushText (acc : Str) : List Item :=
  if acc = [] then [] else [Item.text acc.reverse]

/-- The lexer: text runs up to the left delimiter `{{`, an action up to the
right delimiter `}}`.  `inAction` tells on which side of a delimiter the
scanner is, `acc` holds the characters of the current piece, newest first.
A template ending inside an action is an error (`none`). -/
def lexItems : Bool → Str → Str → Option (List Item)
  | inAction, acc, [] => if inAction then none else some (flushText acc)
  | inAction, acc, [c] => if inAction then none else some (flushText (c :: acc))
  | false, acc, c :: d :: rest =>
    if c = '\x7b' ∧ d = '\x7b' then (lexItems true [] rest).map (flushText acc ++ ·)
    else lexItems false (c :: acc) (d :: rest)
  | true, acc, c :: d :: rest =>
    if c = '\x7d' ∧ d = '\x7d' then (lexItems false [] rest).map (Item.action acc.reverse :: ·)
    else lexItems true (c :: acc) (d :: rest)

/-- The actions of the fragment: `range .`, `end`, and a field of dot. -/
inductive Action
  | range
  | close
  | field (name : Str)

/-- Spaces around the content of an action are skipped. -/
def trimSpaces (s : Str) : Str :=
  ((s.dropWhile (· = ' ')).reverse.dropWhile (· = ' ')).reverse

/-- What an action says.  `range` must be followed by the pipeline `.`; a
field is `.` and a non-empty identifier.  Anything else is outside the
fragment and reported as a parse error. -/
def parseAction (s : Str) : Option Action :=
  let t := trimSpaces s
  if t = "end".toList then some Action.close
  else if t.take 6 = "range ".toList ∧ trimSpaces (t.drop 6) = ".".toList then some Action.range
  else
    match t with
    | '.' :: c :: cs =>
      if (c :: cs).all (fun x => x.isAlphanum || x = '_') then some (Action.field (c :: cs)) else none
    | _ => none

/-- A node of the parse tree. -/
inductive Node
  | text (s : Str)
  | field (name : Str)
  | range (body : List Node)

/-- The parser: `cur` is the list under construction (newest first), `stack`
the lists of the enclosing `range`s.  `end` closes the innermost `range`. -/
def build : List Item → List Node → List (List Node) → Option (List Node)
  | [], cur, [] => some cur.reverse
  | [], _, _ :: _ => none
  | Item.text s :: rest, cur, stack => build rest (Node.text s :: cur) stack
  | Item.action a :: rest, cur, stack =>
    match parseAction a with
    | none => none
    | some (Action.field f) => build rest (Node.field f :: cur) stack
    | some Action.range => build rest [] (cur :: stack)
    | some Action.close =>
      match stack with
      | [] => none
      | up :: stack1 => build rest (Node.range cur.reverse :: up) stack1

/-- Go `template.New(..).Parse(text)`; `none` is a parse error. -/
def Parse (text : Str) : Option (List Node) :=
  match lexItems false [] text with
  | none => none
  | some items => build items [] []

/-- The record of one generated key (Go `type Key struct`). -/
structure Key where
  Name : Str
  Fingerprint : Str
  ArmoredPublicKey : Str
  ArmoredPrivateKey : Str

/-- The data a template runs on: the slice of keys, or one key inside `range`. -/
inductive Value
  | keys (ks : List Key)
  | key (k : Key)

/-- Evaluation of `.name` on dot: a field of the struct `Key`; an error on an
unknown field or when dot is not a struct. -/
def evalField : Value → Str → Option Str
  | Value.key k, name =>
    if name = "Name".toList then some k.Name
    else if name = "Fingerprint".toList then some k.Fingerprint
    else if name = "ArmoredPublicKey".toList then some k.ArmoredPublicKey
    else if name = "ArmoredPrivateKey".toList then some k.ArmoredPrivateKey
    else none
  | Value.keys _, _ => none

/-- What an execution asks the writer to write, one element per `Write`
call, and whether it stopped on an execution error. -/
abbrev Out := List Str × Bool

/-- Runs executions one after the other, stopping at the first error. -/
def joinOuts : List Out → Out
  | [] => ([], false)
  | (o, true) :: _ => (o, true)
  | (o, false) :: rest => (o ++ (joinOuts rest).1, (joinOuts rest).2)

mutual
/-- Execution of one node: text is written as it is; a field is printed with
`fmt.Fprint`, which for a string writes its bytes unchanged (`text/template`
does no escaping); `range .` runs the body once per element, in order, with
dot set to the element, and does nothing on an empty slice. -/
def execNode : Node → Value → Out
  | Node.text s, _ => ([s], false)
  | Node.field f, dot =>
    match evalField dot f with
    | some s => ([s], false)
    | none => ([], true)
  | Node.range body, dot =>
    match dot with
    | Value.keys ks => joinOuts (ks.map fun k => execList body (Value.key k))
    | Value.key _ => ([], true)
/-- Execution of a list of nodes, in order, stopping at the first error. -/
def execList : List Node → Value → Out
  | [], _ => ([], false)
  | n :: ns, dot =>
    match execNode n dot with
    | (o, true) => (o, true)
    | (o, false) => (o ++ (execList ns dot).1, (execList ns dot).2)
end

/-- The text a template gives on a writer that never fails (a buffer):
parse, execute, concatenate what was written.  `none` on a parse or
execution error. -/
def Render (text : Str) (data : Value) : Option Str :=
  match Parse text with
  | none => none
  | some tmpl =>
    match execList tmpl data with
    | (o, false) => some o.flatten
    | (_, true) => none

/-! ## The world outside the program -/

/-- The operations of the OpenPGP library the program calls.  `σ` is whatever
state the library carries between calls (its random source, the entities it
has made), `ε` its errors, `Entity` its `*openpgp.Entity`.  Nothing is assumed
about them.

* `NewEntity name comment email` is `openpgp.NewEntity(name, comment, email, nil)`;
* `SerializePrivate e` and `Serialize e` give the bytes the entity writes to
  the writer it is handed (`e.SerializePrivate(w, nil)`, `e.Serialize(w)`);
* `ArmorEncode blockType` is `armor.Encode(buf, blockType, nil)`, which may
  report an error, and `Armor blockType payload` is the text found in the
  buffer once `payload` has been written to that writer and it is closed;
* `Fingerprint e` reads `e.PrimaryKey.Fingerprint`, a `[20]byte`. -/
structure OpenPGP (σ ε Entity : Type) where
  NewEntity : Str → Str → Str → σ → Except ε Entity × σ
  SerializePrivate : Entity → σ → Except ε (List Byte) × σ
  Serialize : Entity → σ → Except ε (List Byte) × σ
  ArmorEncode : Str → σ → Except ε Unit × σ
  Armor : Str → List Byte → Str
  Fingerprint : Entity → σ → List Byte

/-- Go `openpgp.PrivateKeyType`. -/
def PrivateKeyType : Str := "PGP PRIVATE KEY BLOCK".toList

/-- Go `openpgp.PublicKeyType`. -/
def PublicKeyType : Str := "PGP PUBLIC KEY BLOCK".toList

/-- How the file system answers: whether `os.Create` fails, and for the
`i`-th `Write` on the created file either `none` (all bytes written) or
`some k` (an error after `k` bytes of that call). -/
structure FS where
  createFails : Bool
  write : Nat → Option Nat

/-- The state a run can change: the library's state and the file `keymap.go`
(`none` when it does not exist). -/
structure World (σ : Type) where
  lib : σ
  file : Option Str

/-- Why a run stopped: an error of the library handed to `log.Fatal`, a
run-time panic on `parts[0]`, a `Sprintf` call outside the modelled fragment,
or an error of `Parse`, `os.Create` or `Execute` handed to `log.Fatal`. -/
inductive Fatal (ε : Type)
  | lib (e : ε)
  | indexOutOfRange
  | badFormat
  | parse
  | create
  | execute

/-! ## keygen.go -/

/-- Go `var keymapTemplate`, the concatenation of its raw-string and
back-quote pieces. -/
def keymapTemplate : Str :=
  ("// Code generated by go generate.\n// Source file: keygen.go\n// DO NOT EDIT!\n\n" ++
   "package keystoretest\n\nvar KeyMap = map[string]*KeyDetails\x7b\n" ++
   "\x7b\x7brange .\x7d\x7d\t\"\x7b\x7b.Name\x7d\x7d\": &KeyDetails\x7b\n" ++
   "\t\tFingerprint: " ++ "`" ++ "\x7b\x7b.Fingerprint\x7d\x7d" ++ "`" ++ ",\n" ++
   "\t\tArmoredPublicKey: " ++ "`" ++ "\x7b\x7b.ArmoredPublicKey\x7d\x7d" ++ "`" ++ ",\n" ++
   "\t\tArmoredPrivateKey: " ++ "`" ++ "\x7b\x7b.ArmoredPrivateKey\x7d\x7d" ++ "`" ++ ",\n" ++
   "\t\x7d,\n\x7b\x7bend\x7d\x7d\x7d\n").toList

/-- Go `var names`. -/
def names : List Str :=
  ["example.com".toList, "coreos.com".toList, "example.com/app".toList,
   "acme.com".toList, "acme.com/services".toList, "acme.com/services/web/nginx".toList]

/-- The identity handed to `openpgp.NewEntity`. -/
structure Identity where
  name : Str
  comment : Str
  email : Str

/-- The first three lines of `newEntity`: split the name, format the comment
and the e-mail address from `parts[0]`.  The display name is the literal
`"signer"` of the call. -/
def deriveIdentity {ε : Type} (name : Str) : Except (Fatal ε) Identity :=
  let parts := Split name '/'
  match Sprintf "%s Signing Key".toList [Arg.str name] with
  | none => Except.error Fatal.badFormat
  | some comment =>
    match parts with
    | [] => Except.error Fatal.indexOutOfRange
    | part0 :: _ =>
      match Sprintf "signer@%s".toList [Arg.str part0] with
      | none => Except.error Fatal.badFormat
      | some email => Except.ok ⟨"signer".toList, comment, email⟩

/-- The rest of `newEntity`, from the answer of `openpgp.NewEntity` on: an
error is returned; otherwise the private key is serialized once to
`ioutil.Discard` and an error of that is returned; otherwise the entity. -/
def afterNewEntity {σ ε Entity : Type} (L : OpenPGP σ ε Entity) :
    Except ε Entity × σ → Except (Fatal ε) Entity × σ
  | (Except.error e, s1) => (Except.error (Fatal.lib e), s1)
  | (Except.ok entity, s1) =>
    match L.SerializePrivate entity s1 with
    | (Except.error e, s2) => (Except.error (Fatal.lib e), s2)
    | (Except.ok _, s2) => (Except.ok entity, s2)

/-- Go `func newEntity(name string) (*openpgp.Entity, error)`. -/
def newEntity {σ ε Entity : Type} (L : OpenPGP σ ε Entity) (name : Str) (s : σ) :
    Except (Fatal ε) Entity × σ :=
  match deriveIdentity name with
  | Except.error f => (Except.error f, s)
  | Except.ok ident => afterNewEntity L (L.NewEntity ident.name ident.comment ident.email s)

/-- The body of the loop of `main` for one name: `newEntity`, the armored
private key, the armored public key, the fingerprint in `%x`, the record.
Every error goes to `log.Fatal`, which ends the run. -/
def genKey {σ ε Entity : Type} (L : OpenPGP σ ε Entity) (name : Str) (s : σ) :
    Except (Fatal ε) Key × σ :=
  match newEntity L name s with
  | (Except.error f, s1) => (Except.error f, s1)
  | (Except.ok entity, s1) =>
    match L.ArmorEncode PrivateKeyType s1 with
    | (Except.error e, s2) => (Except.error (Fatal.lib e), s2)
    | (Except.ok _, s2) =>
      match L.SerializePrivate entity s2 with
      | (Except.error e, s3) => (Except.error (Fatal.lib e), s3)
      | (Except.ok priv, s3) =>
        match L.ArmorEncode PublicKeyType s3 with
        | (Except.error e, s4) => (Except.error (Fatal.lib e), s4)
        | (Except.ok _, s4) =>
          match L.Serialize entity s4 with
          | (Except.error e, s5) => (Except.error (Fatal.lib e), s5)
          | (Except.ok pub, s5) =>
            match Sprintf "%x".toList [Arg.bytes (L.Fingerprint entity s5)] with
            | none => (Except.error Fatal.badFormat, s5)
            | some fingerprint =>
              (Except.ok
                { Name := name
                  Fingerprint := fingerprint
                  ArmoredPublicKey := L.Armor PublicKeyType pub
                  ArmoredPrivateKey := L.Armor PrivateKeyType priv }, s5)

/-- The loop of `main`, `for _, name := range names`, with `ks` the records
appended so far. -/
def genKeys {σ ε Entity : Type} (L : OpenPGP σ ε Entity) :
    List Str → List Key → σ → Except (Fatal ε) (List Key) × σ
  | [], ks, s => (Except.ok ks, s)
  | name :: rest, ks, s =>
    match genKey L name s with
    | (Except.error f, s1) => (Except.error f, s1)
    | (Except.ok key, s1) => genKeys L rest (ks ++ [key]) s1

/-- The writes of `Execute` on the file: each piece is one `Write`; the first
failing `Write` leaves the bytes it managed to write and stops.  The result is
the content of the file and whether a write failed. `i` counts the calls. -/
def writeChunks (write : Nat → Option Nat) : Nat → Str → List Str → Str × Bool
  | _, file, [] => (file, false)
  | i, file, c :: cs =>
    match write i with
    | some k => (file ++ c.take k, true)
    | none => writeChunks write (i + 1) (file ++ c) cs

/-- Go `tmpl.Execute(f, ks)` on the freshly created, empty file: the
content of the file afterwards and whether `Execute` returned an error (a
failed write, or an execution error after everything before it was written). -/
def Execute (tmpl : List Node) (fs : FS) (data : Value) : Str × Bool :=
  match execList tmpl data with
  | (chunks, failed) =>
    match writeChunks fs.write 0 [] chunks with
    | (content, true) => (content, true)
    | (content, false) => (content, failed)

/-- The part of `main` after the loop, with the records `ks`: parse the
template, create the file (truncating an existing one), execute the template
on it.  An error of any of the three goes to `log.Fatal`.  The deferred
`f.Close()` does not change the content of the file and is left out. -/
def emitKeymap {σ ε : Type} (fs : FS) (ks : List Key) (w : World σ) :
    Except (Fatal ε) Unit × World σ :=
  match Parse keymapTemplate with
  | none => (Except.error Fatal.parse, w)
  | some tmpl =>
    if fs.createFails then (Except.error Fatal.create, w)
    else
      match Execute tmpl fs (Value.keys ks) with
      | (content, true) => (Except.error Fatal.execute, ⟨w.lib, some content⟩)
      | (content, false) => (Except.ok (), ⟨w.lib, some content⟩)

/-- Go `func main()`, with the name list as a parameter (the program runs it
on `names`): the loop from the empty slice of records, then the rest on the
records it gave. -/
def main {σ ε Entity : Type} (L : OpenPGP σ ε Entity) (fs : FS) (nameList : List Str)
    (w : World σ) : Except (Fatal ε) Unit × World σ :=
  match genKeys L nameList [] w.lib with
  | (Except.error f, s1) => (Except.error f, ⟨s1, w.file⟩)
  | (Except.ok ks, s1) => emitKeymap fs ks ⟨s1, w.file⟩

/-- A call of the library made for `name` from the state `s` returns the
error `e` and leaves the state `s1`, every call made for `name` before it
having succeeded.  One case per call of the loop body, in program order:
`openpgp.NewEntity` and the serialization to `ioutil.Discard` inside
`newEntity`, then `armor.Encode` for the private key,
`entity.SerializePrivate`, `armor.Encode` for the public key and
`entity.Serialize` in `main`. -/
inductive LibraryFails {σ ε Entity : Type} (L : OpenPGP σ ε Entity) (name : Str) (s : σ)
    (e : ε) (s1 : σ) : Prop
  | newEntityCall (ident : Identity)
      (hid : (deriveIdentity name : Except (Fatal ε) Identity) = Except.ok ident)
      (h : L.NewEntity ident.name ident.comment ident.email s = (Except.error e, s1)) :
      LibraryFails L name s e s1
  | discardCall (ident : Identity) (entity : Entity) (t0 : σ)
      (hid : (deriveIdentity name : Except (Fatal ε) Identity) = Except.ok ident)
      (h0 : L.NewEntity ident.name ident.comment ident.email s = (Except.ok entity, t0))
      (h : L.SerializePrivate entity t0 = (Except.error e, s1)) :
      LibraryFails L name s e s1
  | armorPrivateCall (entity : Entity) (t1 : σ)
      (h1 : newEntity L name s = (Except.ok entity, t1))
      (h : L.ArmorEncode PrivateKeyType t1 = (Except.error e, s1)) :
      LibraryFails L name s e s1
  | serializePrivateCall (entity : Entity) (t1 t2 : σ)
      (h1 : newEntity L name s = (Except.ok entity, t1))
      (h2 : L.ArmorEncode PrivateKeyType t1 = (Except.ok (), t2))
      (h : L.SerializePrivate entity t2 = (Except.error e, s1)) :
      LibraryFails L name s e s1
  | armorPublicCall (entity : Entity) (t1 t2 t3 : σ) (priv : List Byte)
      (h1 : newEntity L name s = (Except.ok entity, t1))
      (h2 : L.ArmorEncode PrivateKeyType t1 = (Except.ok (), t2))
      (h3 : L.SerializePrivate entity t2 = (Except.ok priv, t3))
      (h : L.ArmorEncode PublicKeyType t3 = (Except.error e, s1)) :
      LibraryFails L name s e s1
  | serializeCall (entity : Entity) (t1 t2 t3 t4 : σ) (priv : List Byte)
      (h1 : newEntity L name s = (Except.ok entity, t1))
      (h2 : L.ArmorEncode PrivateKeyType t1 = (Except.ok (), t2))
      (h3 : L.SerializePrivate entity t2 = (Except.ok priv, t3))
      (h4 : L.ArmorEncode PublicKeyType t3 = (Except.ok (), t4))
      (h : L.Serialize entity t4 = (Except.error e, s1)) :
      LibraryFails L name s e s1

/-! ## Reading the generated file back -/

/-- The value of a Go raw string literal whose opening back quote has just
been read: the characters up to the next back quote, carriage returns
discarded (the Go language specification, "String literals").  `none` when
the literal is not terminated. -/
def readRawString : Str → Option Str
  | [] => none
  | c :: cs =>
    if c = '\x60' then some []
    else if c = '\r' then readRawString cs
    else (readRawString cs).map (c :: ·)

/-- The characters of armored PGP text: the base64 alphabet (letters, digits,
`+`, `/`), the padding `=`, and `-`, `:`, space and newline of the armor
lines. -/
def armorChar (c : Char) : Bool :=
  c.isAlphanum || c = '+' || c = '/' || c = '=' || c = '-' || c = ':' || c = ' ' || c = '\n'

/-! ## The text the specification describes -/

/-- The header the specification describes: the generated-code comment, the
package clause and the opening line of the map. -/
def expectedHeader : Str :=
  ("// Code generated by go generate.\n// Source file: keygen.go\n// DO NOT EDIT!\n\n" ++
   "package keystoretest\n\nvar KeyMap = map[string]*KeyDetails\x7b\n").toList

/-- What stands before the opening back quote of the public key in the entry
of `k`: the quoted name, the fingerprint between back quotes, the field name. -/
def expectedUpToPublic (k : Key) : Str :=
  "\t\"".toList ++ k.Name ++ "\": &KeyDetails\x7b\n\t\tFingerprint: \x60".toList ++
    k.Fingerprint ++ "\x60,\n\t\tArmoredPublicKey: ".toList

/-- What stands between the closing back quote of the public key and the
opening back quote of the private key. -/
def expectedBetweenKeys : Str := ",\n\t\tArmoredPrivateKey: ".toList

/-- What closes an entry after the closing back quote of the private key. -/
def expectedEntryEnd : Str := ",\n\t\x7d,\n".toList

/-- The entry the specification describes for one record. -/
def expectedEntry (k : Key) : Str :=
  expectedUpToPublic k ++ "\x60".toList ++ k.ArmoredPublicKey ++ "\x60".toList ++
    expectedBetweenKeys ++ "\x60".toList ++ k.ArmoredPrivateKey ++ "\x60".toList ++
    expectedEntryEnd

/-- The closing line of the map. -/
def expectedFooter : Str := "\x7d\n".toList

/-- The whole document the specification describes for a sequence of records. -/
def expectedKeymap (ks : List Key) : Str :=
  expectedHeader ++ (ks.map expectedEntry).flatten ++ expectedFooter

/-- The nodes of the body of `range` in the key-map template. -/
def keymapBody : List Node :=
  [Node.text "\t\"".toList, Node.field "Name".toList,
   Node.text "\": &KeyDetails\x7b\n\t\tFingerprint: \x60".toList, Node.field "Fingerprint".toList,
   Node.text "\x60,\n\t\tArmoredPublicKey: \x60".toList, Node.field "ArmoredPublicKey".toList,
   Node.text "\x60,\n\t\tArmoredPrivateKey: \x60".toList, Node.field "ArmoredPrivateKey".toList,
   Node.text "\x60,\n\t\x7d,\n".toList]

/-- The parse tree of the key-map template (`Parse keymapTemplate`, as shown
by `Parse_keymapTemplate`). -/
def keymapTree : List Node :=
  [Node.text expectedHeader, Node.range keymapBody, Node.text expectedFooter]

/-! ## A small library instance, to run the program on concrete inputs -/

/-- A library whose state counts the calls of `NewEntity`, whose entity is the
number of the call that made it, and which refuses the address
`signer@broken.example`. -/
def demoPGP : OpenPGP Nat Str Nat where
  NewEntity := fun _ _ email s =>
    if email = "signer@broken.example".toList then (Except.error "no entropy".toList, s + 1)
    else (Except.ok s, s + 1)
  SerializePrivate := fun e s => (Except.ok [Fin.ofNat e, 1], s)
  Serialize := fun e s => (Except.ok [Fin.ofNat e, 0], s)
  ArmorEncode := fun _ s => (Except.ok (), s)
  Armor := fun blockType payload => blockType ++ ":".toList ++ fmtSbx payload
  Fingerprint := fun e _ => List.replicate 20 (Fin.ofNat (e + 171))

/-- The record `demoPGP` gives for `name` when its entity is number `e`. -/
def demoKey (name : Str) (e : Nat) : Key :=
  { Name := name
    Fingerprint := fmtSbx (List.replicate 20 (Fin.ofNat (e + 171)))
    ArmoredPublicKey := PublicKeyType ++ ":".toList ++ fmtSbx [Fin.ofNat e, 0]
    ArmoredPrivateKey := PrivateKeyType ++ ":".toList ++ fmtSbx [Fin.ofNat e, 1] }

/-- A library whose state counts the calls made to it and whose call number
`k` (counted from 0) returns an error named after the call; every other call
succeeds.  An entity is the number of the call that made it. -/
def faultyPGP (k : Nat) : OpenPGP Nat Str Nat where
  NewEntity := fun _ _ _ s =>
    if s = k then (Except.error "NewEntity".toList, s + 1) else (Except.ok s, s + 1)
  SerializePrivate := fun e s =>
    if s = k then (Except.error "SerializePrivate".toList, s + 1)
    else (Except.ok [Fin.ofNat e, 1], s + 1)
  Serialize := fun e s =>
    if s = k then (Except.error "Serialize".toList, s + 1)
    else (Except.ok [Fin.ofNat e, 0], s + 1)
  ArmorEncode := fun _ s =>
    if s = k then (Except.error "armor.Encode".toList, s + 1) else (Except.ok (), s + 1)
  Armor := fun blockType payload => blockType ++ ":".toList ++ fmtSbx payload
  Fingerprint := fun e _ => List.replicate 20 (Fin.ofNat (e + 171))

/-- A file system on which `os.Create` and every `Write` succeed. -/
def goodFS : FS := ⟨false, fun _ => none⟩

/-- A file system on which `os.Create` succeeds and the first `Write` fails
after `k` bytes. -/
def fullDisk (k : Nat) : FS := ⟨false, fun i => if i = 0 then some k else none⟩

/-- A file system on which `os.Create` fails. -/
def readOnlyFS : FS := ⟨true, fun _ => none⟩

/-! ## Properties -/


theorem IndexByte_eq_none {s : Str} {c : Char} (h : c ∉ s) : IndexByte s c = none := by
  induction s with
  | nil => rfl
  | cons x xs ih =>
    have hx : ¬ x = c := fun e => h (by simp [e])
    have hxs : c ∉ xs := fun e => h (by simp [e])
    simp [IndexByte, hx, ih hxs]

theorem takeWhile_of_not_mem {s : Str} {c : Char} (h : c ∉ s) : s.takeWhile (· != c) = s := by
  induction s with
  | nil => rfl
  | cons x xs ih =>
    have hx : ¬ x = c := fun e => h (by simp [e])
    have hxs : c ∉ xs := fun e => h (by simp [e])
    simp [List.takeWhile_cons, hx, ih hxs]

theorem take_IndexByte {s : Str} {c : Char} {m : Nat} (h : IndexByte s c = some m) :
    s.take m = s.takeWhile (· != c) := by
  induction s generalizing m with
  | nil => simp [IndexByte] at h
  | cons x xs ih =>
    by_cases hx : x = c
    · simp [IndexByte, hx] at h
      subst h
      simp [List.takeWhile_cons, hx]
    · simp only [IndexByte, hx, if_false, Option.map_eq_some'] at h
      obtain ⟨k, hk, rfl⟩ := h
      simp [List.takeWhile_cons, hx, ih hk]

theorem Count_eq_zero {s : Str} {c : Char} (h : Count s c = 0) : c ∉ s := by
  induction s with
  | nil => simp
  | cons x xs ih =>
    by_cases hx : x = c
    · simp [Count, hx] at h
    · simp only [Count, hx, if_false] at h
      simp [ih h, Ne.symm hx]

theorem Count_le_length (s : Str) (c : Char) : Count s c ≤ s.length := by
  induction s with
  | nil => simp [Count]
  | cons x xs ih =>
    by_cases hx : x = c <;> simp [Count, hx] <;> omega

theorem Split_eq (s : Str) (c : Char) : Split s c = genSplitLoop c (Count s c) s := by
  have h := Count_le_length s c
  simp only [Split]
  rw [if_neg (by omega)]
  rfl

theorem not_mem_of_IndexByte_none {s : Str} {c : Char} (h : IndexByte s c = none) : c ∉ s := by
  induction s with
  | nil => simp
  | cons x xs ih =>
    by_cases hx : x = c
    · simp [IndexByte, hx] at h
    · simp only [IndexByte, hx, if_false, Option.map_eq_none'] at h
      simp [ih h, Ne.symm hx]

theorem genSplitLoop_head (c : Char) (n : Nat) (s : Str) (h : n = 0 → c ∉ s) :
    ∃ rest, genSplitLoop c n s = s.takeWhile (· != c) :: rest := by
  cases n with
  | zero => exact ⟨[], by simp [genSplitLoop, takeWhile_of_not_mem (h rfl)]⟩
  | succ k =>
    cases hi : IndexByte s c with
    | none =>
      exact ⟨[], by simp [genSplitLoop, hi, takeWhile_of_not_mem (not_mem_of_IndexByte_none hi)]⟩
    | some m =>
      exact ⟨genSplitLoop c k (s.drop (m + 1)), by simp [genSplitLoop, hi, take_IndexByte hi]⟩

theorem Split_head (s : Str) (c : Char) : ∃ rest, Split s c = s.takeWhile (· != c) :: rest := by
  rw [Split_eq]
  exact genSplitLoop_head c _ s Count_eq_zero

theorem Split_of_not_mem {s : Str} {c : Char} (h : c ∉ s) : Split s c = [s] := by
  rw [Split_eq]
  cases hn : Count s c with
  | zero => rfl
  | succ k => simp [genSplitLoop, IndexByte_eq_none h]

theorem Sprintf_comment (n : Str) :
    Sprintf "%s Signing Key".toList [Arg.str n] = some (n ++ " Signing Key".toList) := by
  rfl

theorem Sprintf_email (p : Str) :
    Sprintf "signer@%s".toList [Arg.str p] = some ("signer@".toList ++ p) := by
  simp [Sprintf, fmtVerb]

theorem deriveIdentity_eq {ε : Type} (n : Str) :
    (deriveIdentity n : Except (Fatal ε) Identity) =
      Except.ok ⟨"signer".toList, n ++ " Signing Key".toList,
        "signer@".toList ++ n.takeWhile (· != '/')⟩ := by
  obtain ⟨rest, h⟩ := Split_head n '/'
  simp only [deriveIdentity, Sprintf_comment, h, Sprintf_email]

/-! ### Identity derivation -/

theorem newEntity_eq {σ ε Entity : Type} (L : OpenPGP σ ε Entity) (n : Str) (s : σ) :
    newEntity L n s =
      afterNewEntity L (L.NewEntity "signer".toList (n ++ " Signing Key".toList)
        ("signer@".toList ++ n.takeWhile (· != '/')) s) := by
  simp only [newEntity, deriveIdentity_eq]

theorem afterNewEntity_ne_panic {σ ε Entity : Type} (L : OpenPGP σ ε Entity)
    (r : Except ε Entity × σ) :
    (afterNewEntity L r).1 ≠ Except.error Fatal.indexOutOfRange ∧
      (afterNewEntity L r).1 ≠ Except.error Fatal.badFormat := by
  obtain ⟨r1, s1⟩ := r
  cases r1 with
  | error e => simp [afterNewEntity]
  | ok entity =>
    simp only [afterNewEntity]
    rcases hs : L.SerializePrivate entity s1 with ⟨r2, s2⟩
    cases r2 <;> simp

/-- C1: for every identity name `n`, the first element of `n` split on `/` is
the prefix of `n` before its first `/`, the identity derived by `newEntity` has
display name `signer`, comment `n ++ " Signing Key"` and e-mail address
`signer@` followed by that prefix, and this identity is what `newEntity` hands
to the key generator `NewEntity` of the library. -/
theorem newEntity_identity {σ ε Entity : Type} (L : OpenPGP σ ε Entity) (n : Str) (s : σ) :
    (Split n '/').head? = some (n.takeWhile (· != '/')) ∧
    (deriveIdentity n : Except (Fatal ε) Identity) =
      Except.ok ⟨"signer".toList, n ++ " Signing Key".toList,
        "signer@".toList ++ n.takeWhile (· != '/')⟩ ∧
    newEntity L n s =
      afterNewEntity L (L.NewEntity "signer".toList (n ++ " Signing Key".toList)
        ("signer@".toList ++ n.takeWhile (· != '/')) s) := by
  refine ⟨?_, deriveIdentity_eq n, newEntity_eq L n s⟩
  obtain ⟨rest, h⟩ := Split_head n '/'
  rw [h]
  rfl

/-- C1, the instance of the specification: the name
`acme.com/services/web/nginx` gives the e-mail address `signer@acme.com` and the
comment `acme.com/services/web/nginx Signing Key`. -/
theorem newEntity_identity_nginx :
    (deriveIdentity "acme.com/services/web/nginx".toList : Except (Fatal Str) Identity) =
      Except.ok ⟨"signer".toList, "acme.com/services/web/nginx Signing Key".toList,
        "signer@acme.com".toList⟩ :=
  (newEntity_identity demoPGP "acme.com/services/web/nginx".toList 0).2.1

/-- C2: for every name without `/`, splitting on `/` gives the name alone, so
the first path segment is the whole name and the derived e-mail address is
`signer@` followed by the name. -/
theorem firstSegment_whole_name {ε : Type} (n : Str) (h : '/' ∉ n) :
    Split n '/' = [n] ∧ (Split n '/').head? = some n ∧
    (deriveIdentity n : Except (Fatal ε) Identity) =
      Except.ok ⟨"signer".toList, n ++ " Signing Key".toList, "signer@".toList ++ n⟩ := by
  have hs := Split_of_not_mem h
  refine ⟨hs, by rw [hs]; rfl, ?_⟩
  rw [deriveIdentity_eq, takeWhile_of_not_mem h]

/-- C2, the instance of the specification: `example.com` has no `/` and gives
`signer@example.com`. -/
theorem firstSegment_whole_name_example :
    '/' ∉ "example.com".toList ∧
    Split "example.com".toList '/' = ["example.com".toList] ∧
    (Split "example.com".toList '/').head? = some "example.com".toList ∧
    (deriveIdentity "example.com".toList : Except (Fatal Str) Identity) =
      Except.ok ⟨"signer".toList, "example.com Signing Key".toList,
        "signer@example.com".toList⟩ :=
  ⟨by decide, firstSegment_whole_name "example.com".toList (by decide)⟩

/-- C10: for every string, the empty one and those made of `/` included,
splitting on `/` gives at least one element, so `parts[0]` is in range; the
derivation of the identity always returns an identity, and `newEntity` never
stops on an index out of range (its only errors are those of the library). -/
theorem split_nonempty_total {σ ε Entity : Type} (L : OpenPGP σ ε Entity) (name : Str) (s : σ) :
    Split name '/' ≠ [] ∧ 0 < (Split name '/').length ∧
    (∃ ident, (deriveIdentity name : Except (Fatal ε) Identity) = Except.ok ident) ∧
    (newEntity L name s).1 ≠ Except.error Fatal.indexOutOfRange := by
  obtain ⟨rest, h⟩ := Split_head name '/'
  refine ⟨by simp [h], by simp [h], ⟨_, deriveIdentity_eq name⟩, ?_⟩
  rw [newEntity_eq]
  exact (afterNewEntity_ne_panic L _).1

/-! ### The fingerprint in hexadecimal -/

set_option maxRecDepth 100000 in
theorem fmtSbx_byte : ∀ b : Byte,
    hexDecode (fmtSbx [b]) = some [b] ∧
      (fmtSbx [b]).all (fun c => decide (c ∈ "0123456789abcdef".toList)) = true := by
  decide

theorem fmtSbx_cons (b : Byte) (bs : List Byte) : fmtSbx (b :: bs) = fmtSbx [b] ++ fmtSbx bs := by
  simp [fmtSbx]

theorem fmtSbx_length (bs : List Byte) : (fmtSbx bs).length = 2 * bs.length := by
  induction bs with
  | nil => rfl
  | cons b bs ih => simp [fmtSbx, ih]; omega

theorem hexDecode_pair {p q : Char} {b : Byte} (y : Str) (h : hexDecode [p, q] = some [b]) :
    hexDecode (p :: q :: y) = (hexDecode y).map (b :: ·) := by
  simp only [hexDecode] at h ⊢
  cases hp : fromHexChar p <;> cases hq : fromHexChar q <;> simp [hp, hq] at h ⊢
  cases hy : hexDecode y <;> simp [h]

theorem hexDecode_fmtSbx (bs : List Byte) : hexDecode (fmtSbx bs) = some bs := by
  induction bs with
  | nil => rfl
  | cons b bs ih =>
    have h := hexDecode_pair (fmtSbx bs) (fmtSbx_byte b).1
    rw [ih] at h
    exact h

theorem fmtSbx_chars (bs : List Byte) : ∀ c ∈ fmtSbx bs, c ∈ "0123456789abcdef".toList := by
  induction bs with
  | nil => simp [fmtSbx]
  | cons b bs ih =>
    intro c hc
    rw [fmtSbx_cons, List.mem_append] at hc
    rcases hc with hc | hc
    · have h := (fmtSbx_byte b).2
      rw [List.all_eq_true] at h
      exact of_decide_eq_true (h c hc)
    · exact ih c hc

theorem Sprintf_x (fp : List Byte) : Sprintf "%x".toList [Arg.bytes fp] = some (fmtSbx fp) := by
  simp [Sprintf, fmtVerb]

theorem genKey_ok {σ ε Entity : Type} {L : OpenPGP σ ε Entity} {name : Str} {s s1 : σ} {key : Key}
    (h : genKey L name s = (Except.ok key, s1)) :
    key.Name = name ∧ ∃ entity t, newEntity L name s = (Except.ok entity, t) ∧
      key.Fingerprint = fmtSbx (L.Fingerprint entity s1) := by
  simp only [genKey] at h
  rcases h1 : newEntity L name s with ⟨r1, t1⟩
  rw [h1] at h
  cases r1 with
  | error f => simp at h
  | ok entity =>
    simp only at h
    rcases h2 : L.ArmorEncode PrivateKeyType t1 with ⟨r2, t2⟩
    rw [h2] at h
    cases r2 with
    | error e => simp at h
    | ok u2 =>
      simp only at h
      rcases h3 : L.SerializePrivate entity t2 with ⟨r3, t3⟩
      rw [h3] at h
      cases r3 with
      | error e => simp at h
      | ok priv =>
        simp only at h
        rcases h4 : L.ArmorEncode PublicKeyType t3 with ⟨r4, t4⟩
        rw [h4] at h
        cases r4 with
        | error e => simp at h
        | ok u4 =>
          simp only at h
          rcases h5 : L.Serialize entity t4 with ⟨r5, t5⟩
          rw [h5] at h
          cases r5 with
          | error e => simp at h
          | ok pub =>
            simp only [Sprintf_x] at h
            simp only [Prod.mk.injEq, Except.ok.injEq] at h
            obtain ⟨hk, hs⟩ := h
            subst hk hs
            exact ⟨rfl, entity, t1, rfl, rfl⟩

/-- C9: the `Fingerprint` field of a generated record is the `%x` formatting of
the fingerprint bytes of the entity `newEntity` returned for the name, and
when these are 20 bytes the field has exactly 40 characters, each of them one
of `0`-`9`, `a`-`f`, and decoding it as hexadecimal gives back the 20 bytes,
in order. -/
theorem fingerprint_field_hex {σ ε Entity : Type} (L : OpenPGP σ ε Entity) (name : Str)
    (s s1 : σ) (key : Key) (h : genKey L name s = (Except.ok key, s1)) :
    ∃ entity t, newEntity L name s = (Except.ok entity, t) ∧
      Sprintf "%x".toList [Arg.bytes (L.Fingerprint entity s1)] = some key.Fingerprint ∧
      ((L.Fingerprint entity s1).length = 20 →
        key.Fingerprint.length = 40 ∧
        (∀ c ∈ key.Fingerprint, c ∈ "0123456789abcdef".toList) ∧
        hexDecode key.Fingerprint = some (L.Fingerprint entity s1)) := by
  obtain ⟨_, entity, t, hn, hf⟩ := genKey_ok h
  refine ⟨entity, t, hn, by rw [Sprintf_x, hf], fun hlen => ?_⟩
  rw [hf]
  exact ⟨by rw [fmtSbx_length, hlen], fmtSbx_chars _, hexDecode_fmtSbx _⟩

/-- C9, an instance: the record of `example.com` made by the demonstration
library from 20 bytes `0xab` has a fingerprint field of 40 characters. -/
theorem fingerprint_field_hex_example :
    genKey demoPGP "example.com".toList 0 = (Except.ok (demoKey "example.com".toList 0), 1) ∧
    (demoKey "example.com".toList 0).Fingerprint.length = 40 := by
  refine ⟨rfl, ?_⟩
  obtain ⟨entity, t, _, _, h⟩ :=
    fingerprint_field_hex demoPGP "example.com".toList 0 1 (demoKey "example.com".toList 0) rfl
  exact (h (by simp [demoPGP])).1

/-! ### The loop of `main` -/

theorem genKeys_append {σ ε Entity : Type} (L : OpenPGP σ ε Entity) (pre rest : List Str)
    (acc : List Key) (s : σ) :
    genKeys L (pre ++ rest) acc s =
      match genKeys L pre acc s with
      | (Except.error f, s1) => (Except.error f, s1)
      | (Except.ok ks, s1) => genKeys L rest ks s1 := by
  induction pre generalizing acc s with
  | nil => rfl
  | cons n pre ih =>
    simp only [List.cons_append, genKeys]
    rcases hk : genKey L n s with ⟨r, s1⟩
    cases r with
    | error f => rfl
    | ok key => exact ih _ _

theorem genKeys_names {σ ε Entity : Type} (L : OpenPGP σ ε Entity) (nl : List Str)
    (acc ks : List Key) (s s1 : σ) (h : genKeys L nl acc s = (Except.ok ks, s1)) :
    ks.map (·.Name) = acc.map (·.Name) ++ nl := by
  induction nl generalizing acc s with
  | nil =>
    simp only [genKeys, Prod.mk.injEq, Except.ok.injEq] at h
    simp [h.1]
  | cons n nl ih =>
    simp only [genKeys] at h
    rcases hk : genKey L n s with ⟨r, t⟩
    rw [hk] at h
    cases r with
    | error f => simp at h
    | ok key =>
      have hn := (genKey_ok hk).1
      rw [ih _ _ h]
      simp [hn]

/-- C3: when the loop of `main` ends without an error, the records it has
accumulated are as many as the names, the names of the records are the input
names in the same order (equal lists, so repeated names stay repeated), the
record at every index carries the name at that index, and these records are
what `main` hands to the rest of the run, which renders them. -/
theorem records_follow_names {σ ε Entity : Type} (L : OpenPGP σ ε Entity) (fs : FS)
    (nameList : List Str) (w : World σ) (ks : List Key) (s1 : σ)
    (h : genKeys L nameList [] w.lib = (Except.ok ks, s1)) :
    ks.length = nameList.length ∧
    ks.map (·.Name) = nameList ∧
    (∀ (i : Nat) (h1 : i < ks.length) (h2 : i < nameList.length),
      (ks.get ⟨i, h1⟩).Name = nameList.get ⟨i, h2⟩) ∧
    main L fs nameList w = emitKeymap fs ks ⟨s1, w.file⟩ := by
  have hm : ks.map (·.Name) = nameList := by
    simpa using genKeys_names L nameList [] ks w.lib s1 h
  refine ⟨?_, hm, ?_, ?_⟩
  · rw [← hm, List.length_map]
  · intro i h1 h2
    subst hm
    simp
  · simp only [main, h]

/-- C3, an instance with a repeated name: the demonstration library gives two
records for the list `example.com`, `example.com`, both named `example.com`. -/
theorem records_follow_names_example :
    genKeys demoPGP ["example.com".toList, "example.com".toList] [] 0 =
      (Except.ok [demoKey "example.com".toList 0, demoKey "example.com".toList 1], 2) ∧
    [demoKey "example.com".toList 0, demoKey "example.com".toList 1].map (·.Name) =
      ["example.com".toList, "example.com".toList] :=
  ⟨rfl, (records_follow_names demoPGP goodFS ["example.com".toList, "example.com".toList]
    ⟨0, none⟩ _ 2 rfl).2.1⟩

theorem genKey_of_LibraryFails {σ ε Entity : Type} {L : OpenPGP σ ε Entity} {name : Str}
    {s s1 : σ} {e : ε} (h : LibraryFails L name s e s1) :
    genKey L name s = (Except.error (Fatal.lib e), s1) := by
  cases h with
  | newEntityCall ident hid h =>
    simp only [genKey, newEntity, hid, h, afterNewEntity]
  | discardCall ident entity t0 hid h0 h =>
    simp only [genKey, newEntity, hid, h0, afterNewEntity, h]
  | armorPrivateCall entity t1 h1 h =>
    simp only [genKey, h1, h]
  | serializePrivateCall entity t1 t2 h1 h2 h =>
    simp only [genKey, h1, h2, h]
  | armorPublicCall entity t1 t2 t3 priv h1 h2 h3 h =>
    simp only [genKey, h1, h2, h3, h]
  | serializeCall entity t1 t2 t3 t4 priv h1 h2 h3 h4 h =>
    simp only [genKey, h1, h2, h3, h4, h]

theorem main_of_genKey_error {σ ε Entity : Type} (L : OpenPGP σ ε Entity) (fs : FS)
    (pre : List Str) (n : Str) (post : List Str) (w : World σ)
    (ks : List Key) (s s1 : σ) (f : Fatal ε)
    (hpre : genKeys L pre [] w.lib = (Except.ok ks, s))
    (hfail : genKey L n s = (Except.error f, s1)) :
    main L fs (pre ++ n :: post) w = (Except.error f, ⟨s1, w.file⟩) := by
  simp only [main, genKeys_append, hpre, genKeys, hfail]

/-- C4: when the records of the names before `n` are produced and, for `n`,
one of the calls of the library (`NewEntity` or the serialization to the
discarded sink inside `newEntity`, `armor.Encode`, `SerializePrivate`,
`Serialize`) returns an error, the loop body stops on that error, and the run
of `main` on the whole list stops with that error in the state the failing
call left, whatever names follow (none of them is processed), and the file is
what it was before the run (neither created nor written). -/
theorem fail_fast {σ ε Entity : Type} (L : OpenPGP σ ε Entity) (fs : FS)
    (pre : List Str) (n : Str) (post : List Str) (w : World σ)
    (ks : List Key) (s s1 : σ) (e : ε)
    (hpre : genKeys L pre [] w.lib = (Except.ok ks, s))
    (hfail : LibraryFails L n s e s1) :
    genKey L n s = (Except.error (Fatal.lib e), s1) ∧
    main L fs (pre ++ n :: post) w = (Except.error (Fatal.lib e), ⟨s1, w.file⟩) :=
  ⟨genKey_of_LibraryFails hfail,
    main_of_genKey_error L fs pre n post w ks s s1 _ hpre (genKey_of_LibraryFails hfail)⟩

/-- C4, instances: of three names the first takes the library calls 0 to 5
and the second the calls 6 to 11.  Whichever call of the second name fails
(`NewEntity`, the serialization to the discarded sink, `armor.Encode` for the
private key, `SerializePrivate`, `armor.Encode` for the public key,
`Serialize`), the run stops with that error right after the failing call (the
count of calls shows none was made for the third name) and the file keeps
its old content. -/
theorem fail_fast_example :
    main (faultyPGP 6) goodFS (["example.com".toList] ++ "acme.com/app".toList ::
        ["coreos.com".toList]) ⟨0, some "old".toList⟩ =
      (Except.error (Fatal.lib "NewEntity".toList), ⟨7, some "old".toList⟩) ∧
    main (faultyPGP 7) goodFS (["example.com".toList] ++ "acme.com/app".toList ::
        ["coreos.com".toList]) ⟨0, some "old".toList⟩ =
      (Except.error (Fatal.lib "SerializePrivate".toList), ⟨8, some "old".toList⟩) ∧
    main (faultyPGP 8) goodFS (["example.com".toList] ++ "acme.com/app".toList ::
        ["coreos.com".toList]) ⟨0, some "old".toList⟩ =
      (Except.error (Fatal.lib "armor.Encode".toList), ⟨9, some "old".toList⟩) ∧
    main (faultyPGP 9) goodFS (["example.com".toList] ++ "acme.com/app".toList ::
        ["coreos.com".toList]) ⟨0, some "old".toList⟩ =
      (Except.error (Fatal.lib "SerializePrivate".toList), ⟨10, some "old".toList⟩) ∧
    main (faultyPGP 10) goodFS (["example.com".toList] ++ "acme.com/app".toList ::
        ["coreos.com".toList]) ⟨0, some "old".toList⟩ =
      (Except.error (Fatal.lib "armor.Encode".toList), ⟨11, some "old".toList⟩) ∧
    main (faultyPGP 11) goodFS (["example.com".toList] ++ "acme.com/app".toList ::
        ["coreos.com".toList]) ⟨0, some "old".toList⟩ =
      (Except.error (Fatal.lib "Serialize".toList), ⟨12, some "old".toList⟩) :=
  ⟨(fail_fast (faultyPGP 6) goodFS ["example.com".toList] "acme.com/app".toList
      ["coreos.com".toList] ⟨0, some "old".toList⟩ _ 6 7 _ rfl
      (LibraryFails.newEntityCall _ rfl rfl)).2,
   (fail_fast (faultyPGP 7) goodFS ["example.com".toList] "acme.com/app".toList
      ["coreos.com".toList] ⟨0, some "old".toList⟩ _ 6 8 _ rfl
      (LibraryFails.discardCall _ 6 7 rfl rfl rfl)).2,
   (fail_fast (faultyPGP 8) goodFS ["example.com".toList] "acme.com/app".toList
      ["coreos.com".toList] ⟨0, some "old".toList⟩ _ 6 9 _ rfl
      (LibraryFails.armorPrivateCall 6 8 rfl rfl)).2,
   (fail_fast (faultyPGP 9) goodFS ["example.com".toList] "acme.com/app".toList
      ["coreos.com".toList] ⟨0, some "old".toList⟩ _ 6 10 _ rfl
      (LibraryFails.serializePrivateCall 6 8 9 rfl rfl rfl)).2,
   (fail_fast (faultyPGP 10) goodFS ["example.com".toList] "acme.com/app".toList
      ["coreos.com".toList] ⟨0, some "old".toList⟩ _ 6 11 _ rfl
      (LibraryFails.armorPublicCall 6 8 9 10 _ rfl rfl rfl rfl)).2,
   (fail_fast (faultyPGP 11) goodFS ["example.com".toList] "acme.com/app".toList
      ["coreos.com".toList] ⟨0, some "old".toList⟩ _ 6 12 _ rfl
      (LibraryFails.serializeCall 6 8 9 10 11 _ rfl rfl rfl rfl rfl)).2⟩

/-! ### The template -/

set_option maxRecDepth 100000 in
theorem Parse_keymapTemplate : Parse keymapTemplate = some keymapTree := by
  rfl

theorem execList_keymapBody (k : Key) :
    (execList keymapBody (Value.key k)).2 = false ∧
      (execList keymapBody (Value.key k)).1.flatten = expectedEntry k := by
  constructor
  · rfl
  · simp [keymapBody, execList, execNode, evalField, expectedEntry, expectedUpToPublic,
      expectedBetweenKeys, expectedEntryEnd]

theorem joinOuts_map (f : Key → Out) (hf : ∀ k, (f k).2 = false) (ks : List Key) :
    (joinOuts (ks.map f)).2 = false ∧
      (joinOuts (ks.map f)).1.flatten = (ks.map fun k => (f k).1.flatten).flatten := by
  induction ks with
  | nil => exact ⟨rfl, rfl⟩
  | cons k ks ih =>
    rcases hk : f k with ⟨o, e⟩
    have he : e = false := by simpa [hk] using hf k
    subst he
    simp [joinOuts, hk, ih.1, ih.2]

theorem execList_range (hd ft : Str) (body : List Node) (ks : List Key) (o : List Str)
    (hj : joinOuts (ks.map fun k => execList body (Value.key k)) = (o, false)) :
    execList [Node.text hd, Node.range body, Node.text ft] (Value.keys ks) =
      (hd :: (o ++ [ft]), false) := by
  simp [execList, execNode, hj]

theorem execList_keymapTree (ks : List Key) :
    (execList keymapTree (Value.keys ks)).2 = false ∧
      (execList keymapTree (Value.keys ks)).1.flatten = expectedKeymap ks := by
  have h := joinOuts_map (fun k => execList keymapBody (Value.key k))
    (fun k => (execList_keymapBody k).1) ks
  have he : (fun k => (execList keymapBody (Value.key k)).1.flatten) = expectedEntry :=
    funext fun k => (execList_keymapBody k).2
  rw [he] at h
  rcases hj : joinOuts (ks.map fun k => execList keymapBody (Value.key k)) with ⟨o, e⟩
  rw [hj] at h
  obtain ⟨h1, h2⟩ := h
  simp only at h1 h2
  subst h1
  rw [keymapTree, execList_range _ _ _ _ _ hj]
  simp [h2, expectedKeymap]

theorem Render_keymap (ks : List Key) :
    Render keymapTemplate (Value.keys ks) = some (expectedKeymap ks) := by
  have h := execList_keymapTree ks
  rcases hx : execList keymapTree (Value.keys ks) with ⟨o, e⟩
  rw [hx] at h
  simp only [Render, Parse_keymapTemplate, hx]
  obtain ⟨h1, h2⟩ := h
  simp only at h1 h2
  subst h1
  simp [h2]

theorem writeChunks_ok (write : Nat → Option Nat) (hw : ∀ i, write i = none)
    (i : Nat) (file : Str) (chunks : List Str) :
    writeChunks write i file chunks = (file ++ chunks.flatten, false) := by
  induction chunks generalizing i file with
  | nil => simp [writeChunks]
  | cons c cs ih => simp [writeChunks, hw, ih]

theorem emitKeymap_ok {σ ε : Type} (fs : FS) (hc : fs.createFails = false)
    (hw : ∀ i, fs.write i = none) (ks : List Key) (w : World σ) :
    (emitKeymap fs ks w : Except (Fatal ε) Unit × World σ) =
      (Except.ok (), ⟨w.lib, some (expectedKeymap ks)⟩) := by
  have h := execList_keymapTree ks
  rcases hx : execList keymapTree (Value.keys ks) with ⟨o, e⟩
  rw [hx] at h
  obtain ⟨h1, h2⟩ := h
  simp only at h1 h2
  subst h1
  simp [emitKeymap, Parse_keymapTemplate, hc, Execute, hx, writeChunks_ok _ hw, h2]

/-- C6: for every sequence of records, the key-map template parses and the
text it renders is the header (generated-code comment with `DO NOT EDIT!`,
package clause, opening line of the map), then for every record in input
order its entry (the name between double quotes, then the three strings of
the record, unchanged, between back quotes), then the closing line; on a file
system without faults this text is the content `main` leaves in the file. -/
theorem render_keymap_text {σ ε : Type} (ks : List Key) (w : World σ) :
    Render keymapTemplate (Value.keys ks) =
      some (("// Code generated by go generate.\n// Source file: keygen.go\n// DO NOT EDIT!\n\n" ++
          "package keystoretest\n\nvar KeyMap = map[string]*KeyDetails\x7b\n").toList ++
        (ks.map fun k =>
          "\t\"".toList ++ k.Name ++ "\": &KeyDetails\x7b\n".toList ++
          "\t\tFingerprint: \x60".toList ++ k.Fingerprint ++ "\x60,\n".toList ++
          "\t\tArmoredPublicKey: \x60".toList ++ k.ArmoredPublicKey ++ "\x60,\n".toList ++
          "\t\tArmoredPrivateKey: \x60".toList ++ k.ArmoredPrivateKey ++ "\x60,\n".toList ++
          "\t\x7d,\n".toList).flatten ++
        "\x7d\n".toList) ∧
    (emitKeymap goodFS ks w : Except (Fatal ε) Unit × World σ) =
      (Except.ok (), ⟨w.lib, Render keymapTemplate (Value.keys ks)⟩) := by
  constructor
  · rw [Render_keymap, expectedKeymap]
    refine congrArg some (congrArg₂ (· ++ ·) (congrArg₂ (· ++ ·) rfl
      (congrArg List.flatten (List.map_congr_left fun k _ => ?_))) rfl)
    simp [expectedEntry, expectedUpToPublic, expectedBetweenKeys, expectedEntryEnd]
  · rw [Render_keymap, emitKeymap_ok goodFS rfl (fun _ => rfl)]

/-! ### Runs of `main` -/

theorem emitKeymap_eq {σ ε : Type} (fs : FS) (ks : List Key) (w : World σ) :
    (emitKeymap fs ks w : Except (Fatal ε) Unit × World σ) =
      if fs.createFails then (Except.error Fatal.create, w)
      else if (Execute keymapTree fs (Value.keys ks)).2 then
        (Except.error Fatal.execute, ⟨w.lib, some (Execute keymapTree fs (Value.keys ks)).1⟩)
      else (Except.ok (), ⟨w.lib, some (Execute keymapTree fs (Value.keys ks)).1⟩) := by
  unfold emitKeymap
  rw [Parse_keymapTemplate]
  dsimp only
  rcases hx : Execute keymapTree fs (Value.keys ks) with ⟨content, failed⟩
  cases failed <;> simp

/-- C7: on the empty name list, with a file system on which `os.Create` and
every write succeed, `main` ends without an error, leaves the state of the
library untouched (no key is generated) and leaves in the file exactly the
header followed by the closing line of the map, with no entry. -/
theorem main_empty_list {σ ε Entity : Type} (L : OpenPGP σ ε Entity) (fs : FS) (w : World σ)
    (hc : fs.createFails = false) (hw : ∀ i, fs.write i = none) :
    main L fs [] w =
      (Except.ok (), ⟨w.lib,
        some ("// Code generated by go generate.\n// Source file: keygen.go\n// DO NOT EDIT!\n\n" ++
          "package keystoretest\n\nvar KeyMap = map[string]*KeyDetails\x7b\n\x7d\n").toList⟩) := by
  simp only [main, genKeys]
  rw [emitKeymap_ok fs hc hw]
  rfl

/-- C7, an instance: the demonstration library on a file system without
faults, with no file before the run. -/
theorem main_empty_list_example :
    main demoPGP goodFS [] ⟨0, none⟩ =
      (Except.ok (), ⟨0,
        some ("// Code generated by go generate.\n// Source file: keygen.go\n// DO NOT EDIT!\n\n" ++
          "package keystoretest\n\nvar KeyMap = map[string]*KeyDetails\x7b\n\x7d\n").toList⟩) :=
  main_empty_list demoPGP goodFS ⟨0, none⟩ rfl (fun _ => rfl)

/-- C5, as stated, fails: on a disk that accepts three bytes of the first
write, the run on the empty name list ends in the error of `Execute`, and the
file, which held `old` before the run, holds the first three bytes of the header
after it. -/
theorem failed_run_changes_file :
    main demoPGP (fullDisk 3) [] ⟨0, some "old".toList⟩ =
      (Except.error Fatal.execute, ⟨0, some "// ".toList⟩) ∧
    (some "// ".toList : Option Str) ≠ some "old".toList := by
  constructor
  · simp only [main, genKeys, emitKeymap_eq]
    rfl
  · decide

/-- C5, amended: a run of `main` that ends in an error other than the error of
executing the template (that is, an error of key generation, of parsing the
template or of creating the file) leaves the file as it was before the run. -/
theorem failed_run_keeps_file {σ ε Entity : Type} (L : OpenPGP σ ε Entity) (fs : FS)
    (nameList : List Str) (w w1 : World σ) (f : Fatal ε)
    (h : main L fs nameList w = (Except.error f, w1)) (hf : f ≠ Fatal.execute) :
    w1.file = w.file := by
  simp only [main] at h
  rcases hg : genKeys L nameList [] w.lib with ⟨r, s1⟩
  rw [hg] at h
  cases r with
  | error e =>
    simp only [Prod.mk.injEq] at h
    rw [← h.2]
  | ok ks =>
    simp only [emitKeymap_eq] at h
    by_cases hc : fs.createFails = true
    · simp only [hc, if_true, Prod.mk.injEq] at h
      rw [← h.2]
    · by_cases hx : (Execute keymapTree fs (Value.keys ks)).2 = true
      · simp only [hc, hx, if_true, Bool.false_eq_true, if_false, Prod.mk.injEq,
          Except.error.injEq] at h
        exact absurd h.1.symm hf
      · simp [hc, hx] at h

/-- C5 amended, an instance: when `os.Create` fails after one record was
generated, the run ends in that error and the file keeps its old content. -/
theorem failed_run_keeps_file_example :
    main demoPGP readOnlyFS ["example.com".toList] ⟨0, some "old".toList⟩ =
      (Except.error Fatal.create, ⟨1, some "old".toList⟩) ∧
    (⟨1, some "old".toList⟩ : World Nat).file = (⟨0, some "old".toList⟩ : World Nat).file := by
  have h : main demoPGP readOnlyFS ["example.com".toList] ⟨0, some "old".toList⟩ =
      (Except.error Fatal.create, ⟨1, some "old".toList⟩) := by
    simp only [main, genKeys, emitKeymap_eq]
    rfl
  exact ⟨h, failed_run_keeps_file demoPGP readOnlyFS _ _ _ _ h (by simp)⟩

/-! ### Reading the armored blocks back -/

theorem armorChar_ne {c : Char} (h : armorChar c = true) : c ≠ '\x60' ∧ c ≠ '\r' := by
  constructor
  · intro e
    subst e
    revert h
    decide
  · intro e
    subst e
    revert h
    decide

theorem readRawString_append (x rest : Str) (hx : ∀ c ∈ x, c ≠ '\x60' ∧ c ≠ '\r') :
    readRawString (x ++ '\x60' :: rest) = some x := by
  induction x with
  | nil => simp [readRawString]
  | cons c cs ih =>
    have hc := hx c (by simp)
    have hcs := ih (fun d hd => hx d (by simp [hd]))
    simp [readRawString, hc.1, hc.2, hcs]

theorem flatten_split_at (ks : List Key) (i : Nat) (hi : i < ks.length) :
    (ks.map expectedEntry).flatten =
      ((ks.take i).map expectedEntry).flatten ++ expectedEntry (ks.get ⟨i, hi⟩) ++
        ((ks.drop (i + 1)).map expectedEntry).flatten := by
  induction ks generalizing i with
  | nil => simp at hi
  | cons k ks ih =>
    cases i with
    | zero => simp
    | succ j =>
      have hj : j < ks.length := by simpa using hi
      simpa using ih j hj

/-- C8: in the text rendered for any sequence of records, the entry of the
record at index `i` puts its armored public key and its armored private key
each between two back quotes, at the place stated here; when both blocks are
armored PGP text (letters, digits, `+`, `/`, `=`, `-`, `:`, space, newline),
reading a raw string literal from just after the opening back quote of either
field gives exactly the block of the record. -/
theorem armored_round_trip (ks : List Key) (i : Nat) (hi : i < ks.length)
    (hpub : ∀ c ∈ (ks.get ⟨i, hi⟩).ArmoredPublicKey, armorChar c = true)
    (hpriv : ∀ c ∈ (ks.get ⟨i, hi⟩).ArmoredPrivateKey, armorChar c = true) :
    Render keymapTemplate (Value.keys ks) =
      some ((expectedHeader ++ ((ks.take i).map expectedEntry).flatten ++
          expectedUpToPublic (ks.get ⟨i, hi⟩)) ++
        '\x60' :: ((ks.get ⟨i, hi⟩).ArmoredPublicKey ++
        '\x60' :: (expectedBetweenKeys ++
        '\x60' :: ((ks.get ⟨i, hi⟩).ArmoredPrivateKey ++
        '\x60' :: (expectedEntryEnd ++ ((ks.drop (i + 1)).map expectedEntry).flatten ++
          expectedFooter))))) ∧
    readRawString ((ks.get ⟨i, hi⟩).ArmoredPublicKey ++
        '\x60' :: (expectedBetweenKeys ++
        '\x60' :: ((ks.get ⟨i, hi⟩).ArmoredPrivateKey ++
        '\x60' :: (expectedEntryEnd ++ ((ks.drop (i + 1)).map expectedEntry).flatten ++
          expectedFooter)))) = some (ks.get ⟨i, hi⟩).ArmoredPublicKey ∧
    readRawString ((ks.get ⟨i, hi⟩).ArmoredPrivateKey ++
        '\x60' :: (expectedEntryEnd ++ ((ks.drop (i + 1)).map expectedEntry).flatten ++
          expectedFooter)) = some (ks.get ⟨i, hi⟩).ArmoredPrivateKey := by
  refine ⟨?_, readRawString_append _ _ (fun c hc => armorChar_ne (hpub c hc)),
    readRawString_append _ _ (fun c hc => armorChar_ne (hpriv c hc))⟩
  rw [Render_keymap, expectedKeymap, flatten_split_at ks i hi]
  generalize ks.get ⟨i, hi⟩ = k
  generalize ((ks.take i).map expectedEntry).flatten = a
  generalize ((ks.drop (i + 1)).map expectedEntry).flatten = b
  simp [expectedEntry, List.append_assoc]

/-- C8, an instance: the record the demonstration library gives for
`example.com`, alone in the list; both of its blocks are armored text and
both are read back unchanged. -/
theorem armored_round_trip_example :
    (∀ c ∈ (demoKey "example.com".toList 0).ArmoredPublicKey, armorChar c = true) ∧
    (∀ c ∈ (demoKey "example.com".toList 0).ArmoredPrivateKey, armorChar c = true) ∧
    readRawString ((demoKey "example.com".toList 0).ArmoredPublicKey ++
        '\x60' :: (expectedBetweenKeys ++
        '\x60' :: ((demoKey "example.com".toList 0).ArmoredPrivateKey ++
        '\x60' :: (expectedEntryEnd ++ [] ++ expectedFooter)))) =
      some (demoKey "example.com".toList 0).ArmoredPublicKey ∧
    readRawString ((demoKey "example.com".toList 0).ArmoredPrivateKey ++
        '\x60' :: (expectedEntryEnd ++ [] ++ expectedFooter)) =
      some (demoKey "example.com".toList 0).ArmoredPrivateKey :=
  ⟨by decide, by decide,
    (armored_round_trip [demoKey "example.com".toList 0] 0 (by decide) (by decide)
      (by decide)).2⟩

end Keygen
